import Mathlib

/-!
Verification of the euisiggen device-signature generator.

This file gives a shallow embedding of the record codec, record stream,
identifier-pool ledger and pre-signing serializer of the repository
(`usersiggen.go`, the EUI range generator, and the license generator),
and proves or refutes the frozen specification claims about them.

Bytes are modelled as `Nat` values (< 256 for well-formed data), byte
buffers as `List Nat`, machine integers as `Nat`/`Int` with explicit
`% 2 ^ w` truncation where the Go code can overflow.
-/

set_option maxRecDepth 4096

/-! ### Big-endian digit strings

`binary.Write`/`binary.Read` with `binary.BigEndian` serialize fixed-width
unsigned integers most-significant byte first.  `beDigits base w v` is the
`w`-digit base-`base` big-endian digit string of `v` (naturally truncating
`v` modulo `base ^ w`, which models the fixed-width integer cast). -/

def beDigits (base : Nat) : Nat → Nat → List Nat
  | 0, _ => []
  | w + 1, v => beDigits base w (v / base) ++ [v % base]

/-- Recombine a big-endian digit string into a number. -/
def beVal (base : Nat) (ds : List Nat) : Nat :=
  ds.foldl (fun a d => a * base + d) 0

def natToBytesBE (w v : Nat) : List Nat := beDigits 256 w v

def beToNat (bs : List Nat) : Nat := beVal 256 bs

theorem beDigits_length (base : Nat) : ∀ w v, (beDigits base w v).length = w := by
  intro w
  induction w with
  | zero => intro v; rfl
  | succ w ih => intro v; simp [beDigits, ih]

theorem beDigits_lt (base : Nat) (hb : 0 < base) :
    ∀ w v, ∀ d ∈ beDigits base w v, d < base := by
  intro w
  induction w with
  | zero => intro v d hd; simp [beDigits] at hd
  | succ w ih =>
    intro v d hd
    simp only [beDigits, List.mem_append, List.mem_singleton] at hd
    rcases hd with hd | hd
    · exact ih _ d hd
    · subst hd; exact Nat.mod_lt _ hb

theorem beVal_snoc (base : Nat) (ds : List Nat) (d : Nat) :
    beVal base (ds ++ [d]) = beVal base ds * base + d := by
  simp [beVal, List.foldl_append]

theorem mod_mul_decomp (a b c : Nat) : a % (b * c) = b * (a / b % c) + a % b := by
  conv_lhs => rw [← Nat.div_add_mod (a % (b * c)) b]
  rw [Nat.mod_mul_right_div_self, Nat.mod_mod_of_dvd _ ⟨c, rfl⟩]

theorem beVal_beDigits (base : Nat) :
    ∀ w v, beVal base (beDigits base w v) = v % base ^ w := by
  intro w
  induction w with
  | zero => intro v; simp [beDigits, beVal, Nat.mod_one]
  | succ w ih =>
    intro v
    rw [beDigits, beVal_snoc, ih, pow_succ, Nat.mul_comm (base ^ w) base,
      mod_mul_decomp, Nat.mul_comm]

theorem beToNat_natToBytesBE (w v : Nat) : beToNat (natToBytesBE w v) = v % 256 ^ w :=
  beVal_beDigits 256 w v

theorem natToBytesBE_length (w v : Nat) : (natToBytesBE w v).length = w :=
  beDigits_length 256 w v

/-! ### Signed 64-bit values

`int64` fields are written as their two's-complement bytes; reading maps
values at or above `2 ^ 63` back to negative integers. -/

def i64ToBytesBE (v : Int) : List Nat := natToBytesBE 8 (v % (2 ^ 64 : Int)).toNat

def decodeI64 (bs : List Nat) : Int :=
  let n := beToNat bs
  if n < 2 ^ 63 then (n : Int) else (n : Int) - 2 ^ 64

theorem i64ToBytesBE_length (v : Int) : (i64ToBytesBE v).length = 8 :=
  natToBytesBE_length 8 _

theorem decodeI64_i64ToBytesBE (v : Int) (h1 : -(2 ^ 63) ≤ v) (h2 : v < 2 ^ 63) :
    decodeI64 (i64ToBytesBE v) = v := by
  unfold decodeI64 i64ToBytesBE
  rw [beToNat_natToBytesBE]
  have h256 : (256 : Nat) ^ 8 = 2 ^ 64 := by norm_num
  rw [h256]
  have hnn : (0 : Int) ≤ v % (2 ^ 64 : Int) := Int.emod_nonneg v (by norm_num)
  have hlt : v % (2 ^ 64 : Int) < 2 ^ 64 := Int.emod_lt_of_pos v (by norm_num)
  simp only []
  split <;> omega

/-! ### CRC-16

Model of the external `go-crc16` dependency used by `Serialize` and the
deserializers: the table-driven CRC-16/CCITT (polynomial `0x1021`, zero
seed).  A table entry for index `n` is eight shift-and-conditionally-xor
rounds starting from `n <<< 8`; each input byte is folded in with
`crc = (crc <<< 8) ^^^ tab[(crc >>> 8) ^^^ byte]`, all in 16-bit
arithmetic. -/

def crcShift (v : Nat) : Nat :=
  if v / 32768 % 2 = 1 then ((v * 2) ^^^ 4129) % 65536 else (v * 2) % 65536

def crc16Tab (n : Nat) : Nat :=
  crcShift (crcShift (crcShift (crcShift (crcShift (crcShift (crcShift (crcShift
    ((n % 256) * 256))))))))

def crc16Update (crc b : Nat) : Nat :=
  ((crc * 256) % 65536) ^^^ crc16Tab ((crc / 256) ^^^ b)

def crc16 (bs : List Nat) : Nat := bs.foldl crc16Update 0

theorem crcShift_lt (v : Nat) : crcShift v < 65536 := by
  unfold crcShift
  split <;> exact Nat.mod_lt _ (by norm_num)

theorem crc16Tab_lt (n : Nat) : crc16Tab n < 65536 := crcShift_lt _

theorem crc16Update_lt (crc b : Nat) : crc16Update crc b < 65536 := by
  have h1 : (crc * 256) % 65536 < 2 ^ 16 := Nat.mod_lt _ (by norm_num)
  have h2 : crc16Tab ((crc / 256) ^^^ b) < 2 ^ 16 := crc16Tab_lt _
  exact Nat.xor_lt_two_pow h1 h2

theorem crc16_lt (bs : List Nat) : crc16 bs < 65536 := by
  have aux : ∀ (l : List Nat) (a : Nat), a < 65536 → l.foldl crc16Update a < 65536 := by
    intro l
    induction l with
    | nil => intro a ha; exact ha
    | cons x xs ih => intro a _; exact ih _ (crc16Update_lt a x)
  exact aux bs 0 (by norm_num)

/-! ### Record data model (`usersiggen.go`)

`BaseSignature`, `EUISignature` and `ComponentSignature` mirror the Go
structs field for field.  Fixed 16-byte array fields (`tuuid`, `tname`)
are byte lists; well-formed values have length 16 and bytes below 256
(`ValidBytes`). -/

structure BaseSignature where
  sig_version_major : Nat
  sig_version_minor : Nat
  sig_version_patch : Nat
  signature_size : Nat
  signature_type : Nat
  unix_time : Int
deriving DecidableEq, Repr

structure EUISignature where
  base : BaseSignature
  eui64 : Nat
deriving DecidableEq, Repr

structure ComponentSignature where
  base : BaseSignature
  component_uuid : List Nat
  name : List Nat
  version_major : Nat
  version_minor : Nat
  version_assembly : Nat
  serial_number : List Nat
  manufacturer_uuid : List Nat
  position : Nat
  data_length : Nat
deriving DecidableEq, Repr

def ValidBytes (n : Nat) (l : List Nat) : Prop := l.length = n ∧ ∀ x ∈ l, x < 256

instance (n : Nat) (l : List Nat) : Decidable (ValidBytes n l) := by
  unfold ValidBytes; infer_instance

/-- Range constraints realized for free by the Go field types
(`uint8`/`uint16`/`int64`). -/
def ValidBase (b : BaseSignature) : Prop :=
  b.sig_version_major < 256 ∧ b.sig_version_minor < 256 ∧ b.sig_version_patch < 256 ∧
  b.signature_size < 65536 ∧ b.signature_type < 256 ∧
  -(2 ^ 63) ≤ b.unix_time ∧ b.unix_time < 2 ^ 63

instance (b : BaseSignature) : Decidable (ValidBase b) := by
  unfold ValidBase; infer_instance

def ValidEui (e : EUISignature) : Prop := ValidBase e.base ∧ e.eui64 < 2 ^ 64

instance (e : EUISignature) : Decidable (ValidEui e) := by
  unfold ValidEui; infer_instance

def ValidComponent (c : ComponentSignature) : Prop :=
  ValidBase c.base ∧ ValidBytes 16 c.component_uuid ∧ ValidBytes 16 c.name ∧
  c.version_major < 256 ∧ c.version_minor < 256 ∧ c.version_assembly < 256 ∧
  ValidBytes 16 c.serial_number ∧ ValidBytes 16 c.manufacturer_uuid ∧
  c.position < 256 ∧ c.data_length < 65536

instance (c : ComponentSignature) : Decidable (ValidComponent c) := by
  unfold ValidComponent; infer_instance

/-! ### Constructors

The version globals `g_version_major/minor/patch` and the reflective
`binary.Size` results are protocol constants of the source. -/

def g_version_major : Nat := 3
def g_version_minor : Nat := 0
def g_version_patch : Nat := 1

/-- `binary.Size(BaseSignature)`: 1+1+1+2+1+8. -/
def baseSignatureBinarySize : Nat := 14
/-- `binary.Size(EUISignature)`: base + 8. -/
def euiSignatureBinarySize : Nat := 22
/-- `binary.Size(ComponentSignature)`: base + 16+16+3+16+16+1+2. -/
def componentSignatureBinarySize : Nat := 84

def SIGNATURE_TYPE_EUI64 : Nat := 0
def SIGNATURE_TYPE_BOARD : Nat := 1
def SIGNATURE_TYPE_PLATFORM : Nat := 2
def SIGNATURE_TYPE_COMPONENT : Nat := 3
def MAX_SIGNATURE_LENGTH : Nat := 1024

/-- `UserSignature.ConstructEUISignature`; the `time.Time` argument is
represented by its `Unix()` value. -/
def ConstructEUISignature (t : Int) (eui : Nat) : EUISignature :=
  ⟨⟨g_version_major, g_version_minor, g_version_patch,
    euiSignatureBinarySize + 2, SIGNATURE_TYPE_EUI64, t⟩, eui⟩

structure BoardVersion where
  major : Nat
  minor : Nat
  assembly : Nat
deriving DecidableEq, Repr

/-- Construction-time validation failures.  The Go code returns the error
strings "Boardname is too short(...)" and "Boardname is too long(...)". -/
inductive ConstructError
  | fieldRequired
  | fieldTooLong
deriving DecidableEq, Repr

/-- `UserSignature.ConstructComponentSignature`.  The board name is the
byte string of the Go `string` argument; `copy(sig.Name[:], boardname)`
leaves the remaining bytes of the zeroed 16-byte array at 0. -/
def ConstructComponentSignature (t : Int) (boardname : List Nat)
    (boardversion : BoardVersion) (uuid : List Nat) (manufuuid : List Nat)
    (serial : List Nat) (component_position : Nat) (signature_type : Nat) :
    Except ConstructError ComponentSignature :=
  if boardname.length = 0 then .error .fieldRequired
  else if 16 < boardname.length then .error .fieldTooLong
  else .ok ⟨⟨g_version_major, g_version_minor, g_version_patch,
      componentSignatureBinarySize + 2, signature_type, t⟩,
    uuid, boardname ++ List.replicate (16 - boardname.length) 0,
    boardversion.major, boardversion.minor, boardversion.assembly,
    serial, manufuuid, component_position, 0⟩

/-! ### Serialization (`UserSignature.Serialize`)

`binary.Write(buf, binary.BigEndian, sig)` walks the struct fields in
declaration order, fixed big-endian layout with no padding; a CRC-16 of
the payload is then appended as two big-endian bytes.  The Go `Serialize`
dispatches on the runtime type; the embedding has one function per record
shape. -/

def serializeBase (b : BaseSignature) : List Nat :=
  [b.sig_version_major % 256] ++ [b.sig_version_minor % 256] ++ [b.sig_version_patch % 256] ++
  natToBytesBE 2 b.signature_size ++ [b.signature_type % 256] ++ i64ToBytesBE b.unix_time

def serializeEuiPayload (e : EUISignature) : List Nat :=
  serializeBase e.base ++ natToBytesBE 8 e.eui64

def serializeComponentPayload (c : ComponentSignature) : List Nat :=
  serializeBase c.base ++ c.component_uuid ++ c.name ++
  [c.version_major % 256] ++ [c.version_minor % 256] ++ [c.version_assembly % 256] ++
  c.serial_number ++ c.manufacturer_uuid ++ [c.position % 256] ++
  natToBytesBE 2 c.data_length

def SerializeEui (e : EUISignature) : List Nat :=
  serializeEuiPayload e ++ natToBytesBE 2 (crc16 (serializeEuiPayload e))

def SerializeComponent (c : ComponentSignature) : List Nat :=
  serializeComponentPayload c ++ natToBytesBE 2 (crc16 (serializeComponentPayload c))

theorem serializeBase_length (b : BaseSignature) : (serializeBase b).length = 14 := by
  simp [serializeBase, natToBytesBE_length, i64ToBytesBE_length]

theorem serializeEuiPayload_length (e : EUISignature) : (serializeEuiPayload e).length = 22 := by
  simp [serializeEuiPayload, serializeBase_length, natToBytesBE_length]

theorem SerializeEui_length (e : EUISignature) : (SerializeEui e).length = 24 := by
  simp [SerializeEui, serializeEuiPayload_length, natToBytesBE_length]

theorem serializeComponentPayload_length (c : ComponentSignature)
    (h : ValidComponent c) : (serializeComponentPayload c).length = 84 := by
  obtain ⟨-, ⟨h1, -⟩, ⟨h2, -⟩, -, -, -, ⟨h3, -⟩, ⟨h4, -⟩, -, -⟩ := h
  simp [serializeComponentPayload, serializeBase_length, natToBytesBE_length, h1, h2, h3, h4]

theorem SerializeComponent_length (c : ComponentSignature)
    (h : ValidComponent c) : (SerializeComponent c).length = 86 := by
  simp [SerializeComponent, serializeComponentPayload_length c h, natToBytesBE_length]

/-! ### Deserialization

`binary.Read` consumes the byte stream sequentially; the decoders below
mirror that as successive `take`/`drop` on the buffer.  A Go slice
expression `b[lo:hi]` with `hi` beyond the slice length is a buffer
overrun whose outcome depends on the caller's backing array; `goSlice`
returns `none` there, and the deserializers map it to the distinguished
outcome `DeserResult.oob`. -/

def goSlice (bs : List Nat) (lo hi : Nat) : Option (List Nat) :=
  if lo ≤ hi ∧ hi ≤ bs.length then some ((bs.drop lo).take (hi - lo)) else none

inductive DeserResult (α : Type) where
  | ok (a : α)
  | err
  | oob
deriving DecidableEq, Repr

def DeserResult.isOob {α : Type} : DeserResult α → Bool
  | .oob => true
  | _ => false

/-- Field-by-field decoding of a `BaseSignature` from the front of a
buffer (the sequential reads of `binary.Read`). -/
def decodeBase (bs : List Nat) : BaseSignature :=
  let r1 := bs.drop 1
  let r2 := r1.drop 1
  let r3 := r2.drop 1
  let r4 := r3.drop 2
  let r5 := r4.drop 1
  ⟨beToNat (bs.take 1), beToNat (r1.take 1), beToNat (r2.take 1),
   beToNat (r3.take 2), beToNat (r4.take 1), decodeI64 (r5.take 8)⟩

def decodeEuiPayload (bs : List Nat) : EUISignature :=
  ⟨decodeBase bs, beToNat ((bs.drop 14).take 8)⟩

def decodeComponentPayload (bs : List Nat) : ComponentSignature :=
  let r1 := bs.drop 14
  let r2 := r1.drop 16
  let r3 := r2.drop 16
  let r4 := r3.drop 1
  let r5 := r4.drop 1
  let r6 := r5.drop 1
  let r7 := r6.drop 16
  let r8 := r7.drop 16
  let r9 := r8.drop 1
  ⟨decodeBase bs, r1.take 16, r2.take 16,
   beToNat (r3.take 1), beToNat (r4.take 1), beToNat (r5.take 1),
   r6.take 16, r7.take 16, beToNat (r8.take 1), beToNat (r9.take 2)⟩

/-- `UserSignature.DeserializeEui`: slices the fixed-size payload and the
two CRC bytes, recomputes the CRC over the payload and compares.  (The
`binary.Read` failure branch of the source is unreachable once both
slices succeed, since the reader then holds exactly the struct size.) -/
def DeserializeEui (eui_bytes : List Nat) : DeserResult EUISignature :=
  match goSlice eui_bytes 0 euiSignatureBinarySize,
        goSlice eui_bytes euiSignatureBinarySize (euiSignatureBinarySize + 2) with
  | some payload, some crc_bytes =>
    let ret := decodeEuiPayload payload
    let stored_crc := beToNat crc_bytes
    let computed_crc := crc16 payload
    if stored_crc = computed_crc then .ok ret else .err
  | _, _ => .oob

/-- `UserSignature.DeserializeComponent`: same scheme over the component
layout. -/
def DeserializeComponent (comp_bytes : List Nat) : DeserResult ComponentSignature :=
  match goSlice comp_bytes 0 componentSignatureBinarySize,
        goSlice comp_bytes componentSignatureBinarySize (componentSignatureBinarySize + 2) with
  | some payload, some crc_bytes =>
    let ret := decodeComponentPayload payload
    let stored_crc := beToNat crc_bytes
    let computed_crc := crc16 payload
    if stored_crc = computed_crc then .ok ret else .err
  | _, _ => .oob

/-- `UserSignature.DeserializeBaseSignature`: reads the 14 header bytes,
no CRC involved. -/
def DeserializeBaseSignature (sig_bytes : List Nat) : DeserResult BaseSignature :=
  match goSlice sig_bytes 0 baseSignatureBinarySize with
  | some hdr => .ok (decodeBase hdr)
  | none => .oob

/-! ### Round-trip lemmas for the codec -/

theorem beToNat_singleton (a : Nat) : beToNat [a] = a := by
  simp [beToNat, beVal]

theorem take_app (l1 l2 : List Nat) (n : Nat) (h : l1.length = n) :
    (l1 ++ l2).take n = l1 := List.take_left' h

theorem drop_app (l1 l2 : List Nat) (n : Nat) (h : l1.length = n) :
    (l1 ++ l2).drop n = l2 := List.drop_left' h

theorem decodeBase_serializeBase (b : BaseSignature) (rest : List Nat)
    (h : ValidBase b) : decodeBase (serializeBase b ++ rest) = b := by
  obtain ⟨hM, hm, hp, hs, hty, ht1, ht2⟩ := h
  simp only [decodeBase, serializeBase, List.append_assoc]
  rw [take_app [b.sig_version_major % 256] _ 1 rfl,
    drop_app [b.sig_version_major % 256] _ 1 rfl,
    take_app [b.sig_version_minor % 256] _ 1 rfl,
    drop_app [b.sig_version_minor % 256] _ 1 rfl,
    take_app [b.sig_version_patch % 256] _ 1 rfl,
    drop_app [b.sig_version_patch % 256] _ 1 rfl,
    take_app _ _ 2 (natToBytesBE_length 2 b.signature_size),
    drop_app _ _ 2 (natToBytesBE_length 2 b.signature_size),
    take_app [b.signature_type % 256] _ 1 rfl,
    drop_app [b.signature_type % 256] _ 1 rfl,
    take_app _ _ 8 (i64ToBytesBE_length b.unix_time)]
  cases b
  simp only [BaseSignature.mk.injEq]
  refine ⟨?_, ?_, ?_, ?_, ?_, ?_⟩
  · rw [beToNat_singleton]; exact Nat.mod_eq_of_lt hM
  · rw [beToNat_singleton]; exact Nat.mod_eq_of_lt hm
  · rw [beToNat_singleton]; exact Nat.mod_eq_of_lt hp
  · rw [beToNat_natToBytesBE]; exact Nat.mod_eq_of_lt (by simpa using hs)
  · rw [beToNat_singleton]; exact Nat.mod_eq_of_lt hty
  · exact decodeI64_i64ToBytesBE _ ht1 ht2

theorem decodeEuiPayload_serialize (e : EUISignature) (rest : List Nat)
    (h : ValidEui e) : decodeEuiPayload (serializeEuiPayload e ++ rest) = e := by
  obtain ⟨hb, he⟩ := h
  simp only [decodeEuiPayload, serializeEuiPayload, List.append_assoc]
  rw [drop_app _ _ 14 (serializeBase_length e.base),
    take_app _ _ 8 (natToBytesBE_length 8 e.eui64)]
  cases e
  simp only [EUISignature.mk.injEq]
  refine ⟨?_, ?_⟩
  · exact decodeBase_serializeBase _ _ hb
  · rw [beToNat_natToBytesBE]; exact Nat.mod_eq_of_lt (by simpa using he)

theorem decodeComponentPayload_serialize (c : ComponentSignature) (rest : List Nat)
    (h : ValidComponent c) :
    decodeComponentPayload (serializeComponentPayload c ++ rest) = c := by
  obtain ⟨hb, ⟨hu, -⟩, ⟨hn, -⟩, hvM, hvm, hva, ⟨hsn, -⟩, ⟨hmu, -⟩, hpos, hdl⟩ := h
  simp only [decodeComponentPayload, serializeComponentPayload, List.append_assoc]
  rw [drop_app _ _ 14 (serializeBase_length c.base),
    take_app _ _ 16 hu, drop_app _ _ 16 hu,
    take_app _ _ 16 hn, drop_app _ _ 16 hn,
    take_app [c.version_major % 256] _ 1 rfl,
    drop_app [c.version_major % 256] _ 1 rfl,
    take_app [c.version_minor % 256] _ 1 rfl,
    drop_app [c.version_minor % 256] _ 1 rfl,
    take_app [c.version_assembly % 256] _ 1 rfl,
    drop_app [c.version_assembly % 256] _ 1 rfl,
    take_app _ _ 16 hsn, drop_app _ _ 16 hsn,
    take_app _ _ 16 hmu, drop_app _ _ 16 hmu,
    take_app [c.position % 256] _ 1 rfl,
    drop_app [c.position % 256] _ 1 rfl,
    take_app _ _ 2 (natToBytesBE_length 2 c.data_length)]
  cases c
  simp only [ComponentSignature.mk.injEq]
  refine ⟨?_, trivial, trivial, ?_, ?_, ?_, trivial, trivial, ?_, ?_⟩
  · exact decodeBase_serializeBase _ _ hb
  · rw [beToNat_singleton]; exact Nat.mod_eq_of_lt hvM
  · rw [beToNat_singleton]; exact Nat.mod_eq_of_lt hvm
  · rw [beToNat_singleton]; exact Nat.mod_eq_of_lt hva
  · rw [beToNat_singleton]; exact Nat.mod_eq_of_lt hpos
  · rw [beToNat_natToBytesBE]; exact Nat.mod_eq_of_lt (by simpa using hdl)

theorem goSlice_some (bs : List Nat) (lo hi : Nat) (h1 : lo ≤ hi) (h2 : hi ≤ bs.length) :
    goSlice bs lo hi = some ((bs.drop lo).take (hi - lo)) := by
  unfold goSlice
  rw [if_pos ⟨h1, h2⟩]

theorem DeserializeEui_serialize (e : EUISignature) (rest : List Nat)
    (h : ValidEui e) : DeserializeEui (SerializeEui e ++ rest) = .ok e := by
  have hlen : (SerializeEui e ++ rest).length = 24 + rest.length := by
    simp [SerializeEui_length]
  unfold DeserializeEui euiSignatureBinarySize
  rw [goSlice_some _ _ _ (by norm_num) (by omega),
    goSlice_some _ _ _ (by norm_num) (by omega)]
  simp only [List.drop_zero, Nat.sub_self, Nat.sub_zero]
  have hpl := serializeEuiPayload_length e
  have hcl := natToBytesBE_length 2 (crc16 (serializeEuiPayload e))
  simp only [SerializeEui, List.append_assoc]
  rw [take_app _ _ 22 hpl, drop_app _ _ 22 hpl,
    show (24 : Nat) - 22 = 2 from rfl, take_app _ _ 2 hcl,
    beToNat_natToBytesBE]
  rw [Nat.mod_eq_of_lt (lt_of_lt_of_le (crc16_lt _) (by norm_num)), if_pos rfl]
  rw [show serializeEuiPayload e = serializeEuiPayload e ++ [] from (List.append_nil _).symm,
    decodeEuiPayload_serialize e [] h]

theorem DeserializeComponent_serialize (c : ComponentSignature) (rest : List Nat)
    (h : ValidComponent c) : DeserializeComponent (SerializeComponent c ++ rest) = .ok c := by
  have hlen : (SerializeComponent c ++ rest).length = 86 + rest.length := by
    simp [SerializeComponent_length c h]
  unfold DeserializeComponent componentSignatureBinarySize
  rw [goSlice_some _ _ _ (by norm_num) (by omega),
    goSlice_some _ _ _ (by norm_num) (by omega)]
  simp only [List.drop_zero, Nat.sub_self, Nat.sub_zero]
  have hpl := serializeComponentPayload_length c h
  have hcl := natToBytesBE_length 2 (crc16 (serializeComponentPayload c))
  simp only [SerializeComponent, List.append_assoc]
  rw [take_app _ _ 84 hpl, drop_app _ _ 84 hpl,
    show (86 : Nat) - 84 = 2 from rfl, take_app _ _ 2 hcl,
    beToNat_natToBytesBE]
  rw [Nat.mod_eq_of_lt (lt_of_lt_of_le (crc16_lt _) (by norm_num)), if_pos rfl]
  rw [show serializeComponentPayload c = serializeComponentPayload c ++ [] from (List.append_nil _).symm,
    decodeComponentPayload_serialize c [] h]

theorem DeserializeBaseSignature_serializeBase (b : BaseSignature) (rest : List Nat)
    (h : ValidBase b) : DeserializeBaseSignature (serializeBase b ++ rest) = .ok b := by
  have hlen : (serializeBase b ++ rest).length = 14 + rest.length := by
    simp [serializeBase_length]
  unfold DeserializeBaseSignature baseSignatureBinarySize
  rw [goSlice_some _ _ _ (by norm_num) (by omega)]
  simp only [List.drop_zero, Nat.sub_zero]
  rw [take_app _ _ 14 (serializeBase_length b)]
  rw [show serializeBase b = serializeBase b ++ [] from (List.append_nil _).symm,
    decodeBase_serializeBase b [] h]

/-! ### Record stream (`readSigsFromFile`)

The Go loop walks the file buffer with a `uint16` cursor `rd`, compared
against `uint16(len(data))` (16-bit truncation of the file length!), and
advances by each header's declared `Signature_size` in `uint16`
arithmetic.  The buffer returned by `ioutil.ReadFile` is backed by an
array whose capacity exceeds its length by at least `bytes.MinRead`
(512) zeroed bytes, and every slice the loop takes reaches at most 86
bytes past `rd`, so re-slicing beyond the length is legal in Go and
reads zeros: the model makes that explicit by appending `zeroSlack` to
each tail passed to a deserializer.  The loop is embedded with a fuel
parameter (one unit per iteration); `data.length + 1` units cover every
execution the claims concern (the Go loop can only outrun that fuel on
inputs where the 16-bit cursor wraps around, where it does not
terminate at all). -/

inductive Sig where
  | eui (e : EUISignature)
  | comp (c : ComponentSignature)
deriving DecidableEq, Repr

/-- `bytes.MinRead` capacity slack of `ioutil.ReadFile`, zero-filled. -/
def zeroSlack : List Nat := List.replicate 512 0

/-- One iteration of the `readSigsFromFile` loop; `recur` continues with
the remaining fuel. -/
def readSigsStep (data : List Nat) (recur : Nat → List Sig → DeserResult (List Sig))
    (rd : Nat) (sigs : List Sig) : DeserResult (List Sig) :=
  if rd < data.length % 65536 then
    match DeserializeBaseSignature (data.drop rd ++ zeroSlack) with
    | .oob => .oob
    | .err => if sigs.isEmpty then .err else .ok sigs
    | .ok bsig =>
      if bsig.signature_size = 0 ∨ MAX_SIGNATURE_LENGTH < bsig.signature_size then
        if sigs.isEmpty then .err else .ok sigs
      else if bsig.signature_type = SIGNATURE_TYPE_EUI64 then
        match DeserializeEui (data.drop rd ++ zeroSlack) with
        | .ok esig => recur ((rd + bsig.signature_size) % 65536) (sigs ++ [.eui esig])
        | .err => .err
        | .oob => .oob
      else if bsig.signature_type = SIGNATURE_TYPE_BOARD ∨
          bsig.signature_type = SIGNATURE_TYPE_PLATFORM ∨
          bsig.signature_type = SIGNATURE_TYPE_COMPONENT then
        match DeserializeComponent (data.drop rd ++ zeroSlack) with
        | .ok csig => recur ((rd + bsig.signature_size) % 65536) (sigs ++ [.comp csig])
        | .err => .err
        | .oob => .oob
      else
        recur ((rd + bsig.signature_size) % 65536) sigs
  else if sigs.isEmpty then .err else .ok sigs

def readSigsLoop (data : List Nat) : Nat → Nat → List Sig → DeserResult (List Sig)
  | 0, _, _ => .oob
  | fuel + 1, rd, sigs => readSigsStep data (readSigsLoop data fuel) rd sigs

def readSigsFromFile (data : List Nat) : DeserResult (List Sig) :=
  readSigsLoop data (data.length + 1) 0 []

theorem readSigsLoop_succ (data : List Nat) (fuel rd : Nat) (sigs : List Sig) :
    readSigsLoop data (fuel + 1) rd sigs =
      readSigsStep data (readSigsLoop data fuel) rd sigs := rfl

/-! ### Validity of constructor outputs -/

theorem ConstructEUISignature_valid (t : Int) (eui : Nat)
    (ht1 : -(2 ^ 63) ≤ t) (ht2 : t < 2 ^ 63) (he : eui < 2 ^ 64) :
    ValidEui (ConstructEUISignature t eui) := by
  refine ⟨⟨?_, ?_, ?_, ?_, ?_, ht1, ht2⟩, he⟩ <;>
    norm_num [ConstructEUISignature, g_version_major, g_version_minor, g_version_patch,
      euiSignatureBinarySize, SIGNATURE_TYPE_EUI64]

theorem ConstructComponentSignature_valid (t : Int) (boardname : List Nat)
    (bv : BoardVersion) (uuid manufuuid serial : List Nat) (pos ty : Nat)
    (c : ComponentSignature)
    (ht1 : -(2 ^ 63) ≤ t) (ht2 : t < 2 ^ 63)
    (hu : ValidBytes 16 uuid) (hm : ValidBytes 16 manufuuid) (hs : ValidBytes 16 serial)
    (hn : ∀ x ∈ boardname, x < 256)
    (hbM : bv.major < 256) (hbm : bv.minor < 256) (hba : bv.assembly < 256)
    (hp : pos < 256) (hty : ty < 256)
    (hok : ConstructComponentSignature t boardname bv uuid manufuuid serial pos ty = .ok c) :
    ValidComponent c := by
  unfold ConstructComponentSignature at hok
  split at hok
  · exact absurd hok (by simp)
  · split at hok
    · exact absurd hok (by simp)
    · rename_i h0 h16
      rw [Except.ok.injEq] at hok
      subst hok
      have hnum : g_version_major < 256 ∧ g_version_minor < 256 ∧ g_version_patch < 256 ∧
          componentSignatureBinarySize + 2 < 65536 := by
        refine ⟨?_, ?_, ?_, ?_⟩ <;>
          norm_num [g_version_major, g_version_minor, g_version_patch, componentSignatureBinarySize]
      refine ⟨⟨hnum.1, hnum.2.1, hnum.2.2.1, hnum.2.2.2, hty, ht1, ht2⟩,
        hu, ⟨?_, ?_⟩, hbM, hbm, hba, hs, hm, hp, by norm_num⟩
      · simp only [List.length_append, List.length_replicate]
        omega
      · intro x hx
        rcases List.mem_append.mp hx with hx | hx
        · exact hn x hx
        · rw [List.eq_of_mem_replicate hx]; norm_num

/-- C1: deserializing the serialization of any record produced by
`ConstructEUISignature` or `ConstructComponentSignature` returns the
original record with no error.  The hypotheses state the ranges that the
Go argument types (`int64` timestamp, `uint64` EUI, 16-byte arrays,
`uint8` scalars, byte strings) guarantee. -/
theorem claim_c1_roundtrip :
    (∀ (t : Int) (eui : Nat), -(2 ^ 63) ≤ t → t < 2 ^ 63 → eui < 2 ^ 64 →
      DeserializeEui (SerializeEui (ConstructEUISignature t eui)) =
        .ok (ConstructEUISignature t eui)) ∧
    (∀ (t : Int) (boardname : List Nat) (bv : BoardVersion)
      (uuid manufuuid serial : List Nat) (pos ty : Nat) (c : ComponentSignature),
      -(2 ^ 63) ≤ t → t < 2 ^ 63 →
      ValidBytes 16 uuid → ValidBytes 16 manufuuid → ValidBytes 16 serial →
      (∀ x ∈ boardname, x < 256) →
      bv.major < 256 → bv.minor < 256 → bv.assembly < 256 → pos < 256 → ty < 256 →
      ConstructComponentSignature t boardname bv uuid manufuuid serial pos ty = .ok c →
      DeserializeComponent (SerializeComponent c) = .ok c) := by
  constructor
  · intro t eui ht1 ht2 he
    have hv := ConstructEUISignature_valid t eui ht1 ht2 he
    rw [show SerializeEui (ConstructEUISignature t eui) =
        SerializeEui (ConstructEUISignature t eui) ++ [] from (List.append_nil _).symm]
    exact DeserializeEui_serialize _ [] hv
  · intro t boardname bv uuid manufuuid serial pos ty c ht1 ht2 hu hm hs hn hbM hbm hba hp hty hok
    have hv := ConstructComponentSignature_valid t boardname bv uuid manufuuid serial
      pos ty c ht1 ht2 hu hm hs hn hbM hbm hba hp hty hok
    rw [show SerializeComponent c = SerializeComponent c ++ [] from (List.append_nil _).symm]
    exact DeserializeComponent_serialize _ [] hv

/-- Concrete component record used by witnesses: the result of
`ConstructComponentSignature 0 [65] ⟨1,2,3⟩ zeros zeros zeros 0 1`. -/
def compWitness : ComponentSignature :=
  ⟨⟨3, 0, 1, 86, 1, 0⟩, List.replicate 16 0, 65 :: List.replicate 15 0,
    1, 2, 3, List.replicate 16 0, List.replicate 16 0, 0, 0⟩

theorem claim_c1_roundtrip_witness :
    DeserializeEui (SerializeEui (ConstructEUISignature 0 1)) =
      .ok (ConstructEUISignature 0 1) ∧
    DeserializeComponent (SerializeComponent compWitness) = .ok compWitness :=
  ⟨claim_c1_roundtrip.1 0 1 (by decide) (by decide) (by decide),
   claim_c1_roundtrip.2 0 [65] ⟨1, 2, 3⟩ (List.replicate 16 0) (List.replicate 16 0)
     (List.replicate 16 0) 0 1 compWitness (by decide) (by decide) (by decide)
     (by decide) (by decide) (by decide) (by decide) (by decide) (by decide)
     (by decide) (by decide) rfl⟩

/-- C7: the `Signature_size` stored by the constructors equals the exact
length of the serialized record including the trailing 2-byte CRC. -/
theorem claim_c7_size_invariant :
    (∀ (t : Int) (eui : Nat),
      (SerializeEui (ConstructEUISignature t eui)).length =
        (ConstructEUISignature t eui).base.signature_size) ∧
    (∀ (t : Int) (boardname : List Nat) (bv : BoardVersion)
      (uuid manufuuid serial : List Nat) (pos ty : Nat) (c : ComponentSignature),
      uuid.length = 16 → manufuuid.length = 16 → serial.length = 16 →
      ConstructComponentSignature t boardname bv uuid manufuuid serial pos ty = .ok c →
      (SerializeComponent c).length = c.base.signature_size) := by
  constructor
  · intro t eui
    rw [SerializeEui_length]
    rfl
  · intro t boardname bv uuid manufuuid serial pos ty c hu hm hs hok
    unfold ConstructComponentSignature at hok
    split at hok
    · exact absurd hok (by simp)
    · split at hok
      · exact absurd hok (by simp)
      · rename_i h0 h16
        rw [Except.ok.injEq] at hok
        subst hok
        simp only [SerializeComponent, serializeComponentPayload, List.length_append,
          serializeBase_length, natToBytesBE_length, List.length_singleton,
          List.length_replicate, hu, hm, hs, componentSignatureBinarySize]
        omega

theorem claim_c7_size_invariant_witness :
    (SerializeEui (ConstructEUISignature 0 1)).length =
      (ConstructEUISignature 0 1).base.signature_size ∧
    (SerializeComponent compWitness).length = compWitness.base.signature_size :=
  ⟨claim_c7_size_invariant.1 0 1,
   claim_c7_size_invariant.2 0 [65] ⟨1, 2, 3⟩ (List.replicate 16 0) (List.replicate 16 0)
     (List.replicate 16 0) 0 1 compWitness (by decide) (by decide) (by decide) rfl⟩

/-- C8: component construction rejects an empty name with the
required-field error and a name longer than 16 bytes with the too-long
error; any name of 1 to 16 bytes succeeds, stored left-justified and
zero-padded in the 16-byte name field. -/
theorem claim_c8_field_bounds :
    ∀ (t : Int) (boardname : List Nat) (bv : BoardVersion)
      (uuid manufuuid serial : List Nat) (pos ty : Nat),
      (boardname.length = 0 →
        ConstructComponentSignature t boardname bv uuid manufuuid serial pos ty =
          .error .fieldRequired) ∧
      (16 < boardname.length →
        ConstructComponentSignature t boardname bv uuid manufuuid serial pos ty =
          .error .fieldTooLong) ∧
      (1 ≤ boardname.length → boardname.length ≤ 16 →
        ∃ c, ConstructComponentSignature t boardname bv uuid manufuuid serial pos ty = .ok c ∧
          c.name = boardname ++ List.replicate (16 - boardname.length) 0) := by
  intro t boardname bv uuid manufuuid serial pos ty
  refine ⟨?_, ?_, ?_⟩
  · intro h0
    unfold ConstructComponentSignature
    rw [if_pos h0]
  · intro h16
    unfold ConstructComponentSignature
    rw [if_neg (by omega), if_pos h16]
  · intro h1 h16
    unfold ConstructComponentSignature
    rw [if_neg (by omega), if_neg (by omega)]
    exact ⟨_, rfl, rfl⟩

theorem claim_c8_field_bounds_witness :
    ConstructComponentSignature 0 [] ⟨1, 2, 3⟩ (List.replicate 16 0) (List.replicate 16 0)
        (List.replicate 16 0) 0 1 = .error .fieldRequired ∧
    ConstructComponentSignature 0 (List.replicate 17 65) ⟨1, 2, 3⟩ (List.replicate 16 0)
        (List.replicate 16 0) (List.replicate 16 0) 0 1 = .error .fieldTooLong ∧
    ∃ c, ConstructComponentSignature 0 [65] ⟨1, 2, 3⟩ (List.replicate 16 0)
        (List.replicate 16 0) (List.replicate 16 0) 0 1 = .ok c ∧
      c.name = [65] ++ List.replicate (16 - ([65] : List Nat).length) 0 :=
  ⟨(claim_c8_field_bounds 0 [] ⟨1, 2, 3⟩ (List.replicate 16 0) (List.replicate 16 0)
      (List.replicate 16 0) 0 1).1 (by decide),
   (claim_c8_field_bounds 0 (List.replicate 17 65) ⟨1, 2, 3⟩ (List.replicate 16 0)
      (List.replicate 16 0) (List.replicate 16 0) 0 1).2.1 (by decide),
   (claim_c8_field_bounds 0 [65] ⟨1, 2, 3⟩ (List.replicate 16 0) (List.replicate 16 0)
      (List.replicate 16 0) 0 1).2.2 (by decide) (by decide)⟩

/-! ### Pre-signing record (license generator)

`ConstructPreSign` and its `Serialize` from the license-signing variant:
`PreSigning{LicenseId uint8, Eui64 uint64, UnixTime int64,
BeatParams{nodesInCluster, partnershipsNr, clustersNr uint8}}`, written
big-endian in declaration order with no CRC. -/

def LICENSE_TYPE : Nat := 4

structure BeatstackParams where
  nodesInCluster : Nat
  partnershipsNr : Nat
  clustersNr : Nat
deriving DecidableEq, Repr

structure PreSigning where
  licenseId : Nat
  eui64 : Nat
  unixTime : Int
  beatParams : BeatstackParams
deriving DecidableEq, Repr

def ConstructPreSign (eui : Nat) (t : Int) (p : BeatstackParams) : PreSigning :=
  ⟨LICENSE_TYPE, eui, t, p⟩

def SerializePreSign (ps : PreSigning) : List Nat :=
  [ps.licenseId % 256] ++ natToBytesBE 8 ps.eui64 ++ i64ToBytesBE ps.unixTime ++
  [ps.beatParams.nodesInCluster % 256] ++ [ps.beatParams.partnershipsNr % 256] ++
  [ps.beatParams.clustersNr % 256]

/-- C9: the serialized pre-signing bytes are a function of the
identifier, timestamp and parameter block alone (an explicit big-endian
layout of exactly those inputs), so two runs on identical inputs produce
byte-identical output. -/
theorem claim_c9_presign_deterministic :
    ∀ (eui : Nat) (t : Int) (p : BeatstackParams),
      SerializePreSign (ConstructPreSign eui t p) =
        [LICENSE_TYPE % 256] ++ natToBytesBE 8 eui ++ i64ToBytesBE t ++
          [p.nodesInCluster % 256] ++ [p.partnershipsNr % 256] ++ [p.clustersNr % 256] ∧
      ∀ (eui2 : Nat) (t2 : Int) (p2 : BeatstackParams), eui = eui2 → t = t2 → p = p2 →
        SerializePreSign (ConstructPreSign eui t p) =
          SerializePreSign (ConstructPreSign eui2 t2 p2) := by
  intro eui t p
  refine ⟨rfl, ?_⟩
  intro eui2 t2 p2 h1 h2 h3
  subst h1; subst h2; subst h3
  rfl

theorem claim_c9_presign_deterministic_witness :
    SerializePreSign (ConstructPreSign 5 7 ⟨1, 2, 3⟩) =
      SerializePreSign (ConstructPreSign 5 7 ⟨1, 2, 3⟩) :=
  (claim_c9_presign_deterministic 5 7 ⟨1, 2, 3⟩).2 5 7 ⟨1, 2, 3⟩ rfl rfl rfl

theorem goSlice_none (bs : List Nat) (lo hi : Nat) (h : bs.length < hi) :
    goSlice bs lo hi = none := by
  unfold goSlice
  rw [if_neg]
  intro hc
  omega

/-- C10: the deserializers check no input length themselves; whenever the
buffer holds at least the fixed record size plus the 2 CRC bytes (or the
14 header bytes for `DeserializeBaseSignature`), every slice is in range
and the result is a decoded value or an error, while any shorter buffer
makes a slice expression index past the end of the buffer (`oob`). -/
theorem claim_c10_implicit_length_precondition :
    (∀ bs : List Nat, 24 ≤ bs.length → (DeserializeEui bs).isOob = false) ∧
    (∀ bs : List Nat, bs.length < 24 → DeserializeEui bs = .oob) ∧
    (∀ bs : List Nat, 86 ≤ bs.length → (DeserializeComponent bs).isOob = false) ∧
    (∀ bs : List Nat, bs.length < 86 → DeserializeComponent bs = .oob) ∧
    (∀ bs : List Nat, 14 ≤ bs.length → (DeserializeBaseSignature bs).isOob = false) ∧
    (∀ bs : List Nat, bs.length < 14 → DeserializeBaseSignature bs = .oob) := by
  refine ⟨?_, ?_, ?_, ?_, ?_, ?_⟩
  · intro bs h
    unfold DeserializeEui euiSignatureBinarySize
    rw [goSlice_some _ _ _ (by norm_num) (by omega),
      goSlice_some _ _ _ (by norm_num) (by omega)]
    simp only []
    split <;> rfl
  · intro bs h
    unfold DeserializeEui euiSignatureBinarySize
    by_cases h22 : bs.length < 22
    · rw [goSlice_none _ _ _ h22]
    · rw [goSlice_some _ _ _ (by norm_num) (by omega), goSlice_none _ _ _ (by omega)]
  · intro bs h
    unfold DeserializeComponent componentSignatureBinarySize
    rw [goSlice_some _ _ _ (by norm_num) (by omega),
      goSlice_some _ _ _ (by norm_num) (by omega)]
    simp only []
    split <;> rfl
  · intro bs h
    unfold DeserializeComponent componentSignatureBinarySize
    by_cases h84 : bs.length < 84
    · rw [goSlice_none _ _ _ h84]
    · rw [goSlice_some _ _ _ (by norm_num) (by omega), goSlice_none _ _ _ (by omega)]
  · intro bs h
    unfold DeserializeBaseSignature baseSignatureBinarySize
    rw [goSlice_some _ _ _ (by norm_num) (by omega)]
    rfl
  · intro bs h
    unfold DeserializeBaseSignature baseSignatureBinarySize
    rw [goSlice_none _ _ _ (by omega)]

theorem claim_c10_implicit_length_precondition_witness :
    (DeserializeEui (List.replicate 24 0)).isOob = false ∧
    DeserializeEui (List.replicate 23 0) = .oob ∧
    (DeserializeComponent (List.replicate 86 0)).isOob = false ∧
    DeserializeComponent (List.replicate 85 0) = .oob ∧
    (DeserializeBaseSignature (List.replicate 14 0)).isOob = false ∧
    DeserializeBaseSignature (List.replicate 13 0) = .oob :=
  ⟨claim_c10_implicit_length_precondition.1 _ (by decide),
   claim_c10_implicit_length_precondition.2.1 _ (by decide),
   claim_c10_implicit_length_precondition.2.2.1 _ (by decide),
   claim_c10_implicit_length_precondition.2.2.2.1 _ (by decide),
   claim_c10_implicit_length_precondition.2.2.2.2.1 _ (by decide),
   claim_c10_implicit_length_precondition.2.2.2.2.2 _ (by decide)⟩

/-! ### Stream lemmas -/

/-- The big-endian `uint16` at offset 3 of a buffer (missing bytes read
as 0): the `Signature_size` a header parse of the buffer reports. -/
def headerSizeField (l : List Nat) : Nat := l.getD 3 0 * 256 + l.getD 4 0

theorem getD_append_replicate (l : List Nat) (k i : Nat) :
    (l ++ List.replicate k 0).getD i 0 = l.getD i 0 := by
  by_cases h : i < l.length
  · exact List.getD_append _ _ _ _ h
  · rw [List.getD_append_right _ _ _ _ (le_of_not_lt h),
      List.getD_eq_default _ _ (le_of_not_lt h)]
    by_cases hk : i - l.length < k
    · rw [List.getD_eq_getElem _ _ (by simpa using hk), List.getElem_replicate]
    · rw [List.getD_eq_default]
      simpa using le_of_not_lt hk

theorem take2_drop : ∀ (i : Nat) (x : List Nat), i + 2 ≤ x.length →
    (x.drop i).take 2 = [x.getD i 0, x.getD (i + 1) 0] := by
  intro i
  induction i with
  | zero =>
    intro x h
    match x, h with
    | a :: b :: t, _ => simp
  | succ i ih =>
    intro x h
    match x, h with
    | a :: t, h =>
      simp only [List.drop_succ_cons, List.getD_cons_succ]
      exact ih t (by simp at h; omega)

theorem beToNat_pair (a b : Nat) : beToNat [a, b] = a * 256 + b := by
  simp [beToNat, beVal]

theorem decodeBase_size (bs : List Nat) :
    (decodeBase bs).signature_size = beToNat ((bs.drop 3).take 2) := by
  simp only [decodeBase, List.drop_drop]

theorem zeroSlack_length : zeroSlack.length = 512 := by
  simp [zeroSlack]

theorem DeserializeBase_slack (l : List Nat) :
    DeserializeBaseSignature (l ++ zeroSlack) =
      .ok (decodeBase ((l ++ zeroSlack).take 14)) := by
  unfold DeserializeBaseSignature baseSignatureBinarySize
  rw [goSlice_some _ _ _ (by norm_num) (by simp [zeroSlack_length])]
  simp

theorem decodeBase_slack_size (l : List Nat) :
    (decodeBase ((l ++ zeroSlack).take 14)).signature_size = headerSizeField l := by
  rw [decodeBase_size, List.drop_take, List.take_take]
  norm_num
  rw [take2_drop 3 _ (by simp [zeroSlack_length])]
  rw [beToNat_pair, zeroSlack, getD_append_replicate, getD_append_replicate]
  rfl

/-- Loop step consuming a well-formed serialized EUI record at the cursor. -/
theorem readSigs_step_eui (data : List Nat) (fuel rd : Nat) (sigs : List Sig)
    (e : EUISignature) (rest : List Nat)
    (he : ValidEui e) (hsz : e.base.signature_size = 24)
    (hty : e.base.signature_type = 0)
    (hdrop : data.drop rd = SerializeEui e ++ rest)
    (hrd : rd < data.length % 65536) :
    readSigsLoop data (fuel + 1) rd sigs =
      readSigsLoop data fuel ((rd + 24) % 65536) (sigs ++ [.eui e]) := by
  have hbase : DeserializeBaseSignature (data.drop rd ++ zeroSlack) = .ok e.base := by
    rw [hdrop, List.append_assoc, SerializeEui, serializeEuiPayload, List.append_assoc,
      List.append_assoc]
    exact DeserializeBaseSignature_serializeBase _ _ he.1
  have heui : DeserializeEui (data.drop rd ++ zeroSlack) = .ok e := by
    rw [hdrop, List.append_assoc]
    exact DeserializeEui_serialize e _ he
  rw [readSigsLoop_succ]
  unfold readSigsStep
  rw [if_pos hrd, hbase, heui]
  simp only [hsz, hty, SIGNATURE_TYPE_EUI64, MAX_SIGNATURE_LENGTH]
  norm_num

/-- Loop step consuming a well-formed serialized component-shaped record
(board, platform or component type tag) at the cursor. -/
theorem readSigs_step_comp (data : List Nat) (fuel rd : Nat) (sigs : List Sig)
    (c : ComponentSignature) (rest : List Nat)
    (hc : ValidComponent c) (hsz : c.base.signature_size = 86)
    (hty : c.base.signature_type = 1 ∨ c.base.signature_type = 2 ∨
      c.base.signature_type = 3)
    (hdrop : data.drop rd = SerializeComponent c ++ rest)
    (hrd : rd < data.length % 65536) :
    readSigsLoop data (fuel + 1) rd sigs =
      readSigsLoop data fuel ((rd + 86) % 65536) (sigs ++ [.comp c]) := by
  have hbase : DeserializeBaseSignature (data.drop rd ++ zeroSlack) = .ok c.base := by
    rw [hdrop, List.append_assoc, SerializeComponent, serializeComponentPayload]
    simp only [List.append_assoc]
    exact DeserializeBaseSignature_serializeBase _ _ hc.1
  have hcomp : DeserializeComponent (data.drop rd ++ zeroSlack) = .ok c := by
    rw [hdrop, List.append_assoc]
    exact DeserializeComponent_serialize c _ hc
  rw [readSigsLoop_succ]
  unfold readSigsStep
  rw [if_pos hrd, hbase, hcomp]
  simp only [hsz, SIGNATURE_TYPE_EUI64, SIGNATURE_TYPE_BOARD, SIGNATURE_TYPE_PLATFORM,
    SIGNATURE_TYPE_COMPONENT, MAX_SIGNATURE_LENGTH]
  rcases hty with h | h | h <;> rw [h] <;> norm_num

/-- Loop exit once the 16-bit cursor reaches the 16-bit-truncated length. -/
theorem readSigs_exit (data : List Nat) (fuel rd : Nat) (sigs : List Sig)
    (h : ¬rd < data.length % 65536) :
    readSigsLoop data (fuel + 1) rd sigs =
      if sigs.isEmpty then .err else .ok sigs := by
  rw [readSigsLoop_succ]
  unfold readSigsStep
  rw [if_neg h]

/-- Loop break on a header whose declared size is 0 or above the sanity
ceiling. -/
theorem readSigs_break (data : List Nat) (fuel rd : Nat) (sigs : List Sig)
    (hrd : rd < data.length % 65536)
    (hsz : headerSizeField (data.drop rd) = 0 ∨ 1024 < headerSizeField (data.drop rd)) :
    readSigsLoop data (fuel + 1) rd sigs =
      if sigs.isEmpty then .err else .ok sigs := by
  rw [readSigsLoop_succ]
  unfold readSigsStep
  rw [if_pos hrd, DeserializeBase_slack]
  simp only [MAX_SIGNATURE_LENGTH]
  rw [if_pos]
  rw [decodeBase_slack_size]
  exact hsz

/-- Records as the `board` generation path produces them: valid field
ranges plus the correct declared size and type tag. -/
def WfEui (e : EUISignature) : Prop :=
  ValidEui e ∧ e.base.signature_size = 24 ∧ e.base.signature_type = 0

instance (e : EUISignature) : Decidable (WfEui e) := by
  unfold WfEui; infer_instance

def WfComp (c : ComponentSignature) : Prop :=
  ValidComponent c ∧ c.base.signature_size = 86 ∧
  (c.base.signature_type = 1 ∨ c.base.signature_type = 2 ∨ c.base.signature_type = 3)

instance (c : ComponentSignature) : Decidable (WfComp c) := by
  unfold WfComp; infer_instance

/-- C2 (amended): `readSigsFromFile` on two well-formed records followed
by garbage returns exactly the two records when the garbage does not
parse as a valid header (its declared-size field, read with the buffer's
zero capacity slack, is 0 or above the 1024 ceiling) *and* the total
input is shorter than 65536 bytes (the loop compares a `uint16` cursor
against the length truncated to `uint16`); and on any input whose
leading declared size is 0 or out of range it fails with an error,
returning no records. -/
theorem claim_c2_stream_tolerance :
    (∀ (e : EUISignature) (c : ComponentSignature) (g : List Nat),
      WfEui e → WfComp c →
      headerSizeField g = 0 ∨ 1024 < headerSizeField g →
      110 + g.length < 65536 →
      readSigsFromFile (SerializeEui e ++ (SerializeComponent c ++ g)) =
        .ok [.eui e, .comp c]) ∧
    (∀ data : List Nat,
      headerSizeField data = 0 ∨ 1024 < headerSizeField data →
      readSigsFromFile data = .err) := by
  constructor
  · intro e c g he hc hg hglen
    obtain ⟨hev, hesz, hety⟩ := he
    obtain ⟨hcv, hcsz, hcty⟩ := hc
    have hlen : (SerializeEui e ++ (SerializeComponent c ++ g)).length = 110 + g.length := by
      simp [SerializeEui_length, SerializeComponent_length c hcv]
      omega
    have hmod : (SerializeEui e ++ (SerializeComponent c ++ g)).length % 65536 =
        110 + g.length := by
      rw [hlen]; exact Nat.mod_eq_of_lt hglen
    have hdrop0 : (SerializeEui e ++ (SerializeComponent c ++ g)).drop 0 =
        SerializeEui e ++ (SerializeComponent c ++ g) := List.drop_zero _
    have hdrop24 : (SerializeEui e ++ (SerializeComponent c ++ g)).drop 24 =
        SerializeComponent c ++ g := drop_app _ _ 24 (SerializeEui_length e)
    have hdrop110 : (SerializeEui e ++ (SerializeComponent c ++ g)).drop 110 = g := by
      rw [← List.append_assoc]
      refine drop_app _ _ 110 ?_
      simp [SerializeEui_length, SerializeComponent_length c hcv]
    unfold readSigsFromFile
    rw [hlen]
    rw [readSigs_step_eui _ (110 + g.length) 0 [] e (SerializeComponent c ++ g)
      hev hesz hety hdrop0 (by rw [hmod]; omega)]
    rw [show ((0 + 24) % 65536 : Nat) = 24 from by norm_num]
    rw [show (110 + g.length : Nat) = (109 + g.length) + 1 from by omega]
    rw [readSigs_step_comp _ (109 + g.length) 24 ([] ++ [Sig.eui e]) c g
      hcv hcsz hcty hdrop24 (by rw [hmod]; omega)]
    rw [show ((24 + 86) % 65536 : Nat) = 110 from by norm_num]
    rw [show (109 + g.length : Nat) = (108 + g.length) + 1 from by omega]
    by_cases hg0 : g.length = 0
    · rw [readSigs_exit _ (108 + g.length) 110 _ (by rw [hmod]; omega)]
      simp
    · rw [readSigs_break _ (108 + g.length) 110 _ (by rw [hmod]; omega)
        (by rw [hdrop110]; exact hg)]
      simp
  · intro data hsz
    unfold readSigsFromFile
    by_cases h0 : 0 < data.length % 65536
    · rw [readSigs_break data data.length 0 [] h0 (by rw [List.drop_zero]; exact hsz)]
      simp
    · rw [readSigs_exit data data.length 0 [] h0]
      simp

theorem claim_c2_stream_tolerance_witness :
    readSigsFromFile (SerializeEui (ConstructEUISignature 0 1) ++
        (SerializeComponent compWitness ++ [])) =
      .ok [.eui (ConstructEUISignature 0 1), .comp compWitness] ∧
    readSigsFromFile [] = .err :=
  ⟨claim_c2_stream_tolerance.1 (ConstructEUISignature 0 1) compWitness []
      (by decide) (by decide) (Or.inl (by decide)) (by decide),
   claim_c2_stream_tolerance.2 [] (Or.inl (by decide))⟩

/-- C2 counterexample to the original claim: 65426 zero bytes of
trailing garbage (declared size 0, so not a valid header) push the total
input to 65536 bytes; `uint16(len(data))` truncates to 0, the loop never
runs and the decode fails with an error instead of returning `[A, B]`. -/
theorem claim_c2_counterexample :
    headerSizeField (List.replicate 65426 0) = 0 ∧
    readSigsFromFile (SerializeEui (ConstructEUISignature 0 1) ++
        (SerializeComponent compWitness ++ List.replicate 65426 0)) = .err := by
  constructor
  · rw [headerSizeField,
      show List.replicate 65426 (0 : Nat) = [] ++ List.replicate 65426 0 from rfl,
      getD_append_replicate, getD_append_replicate]
    rfl
  · have hv : ValidComponent compWitness := by decide
    have hlen : (SerializeEui (ConstructEUISignature 0 1) ++
        (SerializeComponent compWitness ++ List.replicate 65426 0)).length = 65536 := by
      rw [List.length_append, List.length_append, List.length_replicate,
        SerializeEui_length, SerializeComponent_length _ hv]
    unfold readSigsFromFile
    rw [hlen]
    rw [readSigs_exit _ 65536 0 [] (by rw [hlen]; norm_num)]
    simp

/-! ### Text lines (identifier ledger)

The ledger files are line oriented; a file is modelled by its list of
lines, each a `Char` list with the terminating newline stripped, matching
what `bufio.Scanner` hands the Go code line by line.  `strings.TrimSpace`
is modelled over the ASCII whitespace characters; `strings.Split` on a
single-character separator is `splitComma`. -/

def isSpc (c : Char) : Bool :=
  c = ' ' || c = '\t' || c = '\n' || c = '\r' || c = Char.ofNat 11 || c = Char.ofNat 12

def trimChars (cs : List Char) : List Char :=
  ((cs.dropWhile isSpc).reverse.dropWhile isSpc).reverse

def splitComma : List Char → List (List Char)
  | [] => [[]]
  | c :: cs =>
    if c = ',' then [] :: splitComma cs
    else
      match splitComma cs with
      | s :: ss => (c :: s) :: ss
      | [] => [[c]]

def isHexDig (c : Char) : Bool :=
  ('0' ≤ c && c ≤ '9') || ('a' ≤ c && c ≤ 'f') || ('A' ≤ c && c ≤ 'F')

def hexVal (c : Char) : Nat :=
  if '0' ≤ c ∧ c ≤ '9' then c.toNat - 48
  else if 'a' ≤ c ∧ c ≤ 'f' then c.toNat - 87
  else c.toNat - 55

/-- `parseEui`: exactly 16 characters, parsed by `strconv.ParseUint`
with base 16 (any mix of upper and lower case hex digits; 16 hex digits
never overflow `uint64`). -/
def parseEui (cs : List Char) : Option Nat :=
  if cs.length = 16 ∧ cs.all isHexDig then
    some (cs.foldl (fun a c => a * 16 + hexVal c) 0)
  else none

/-- `%016X`: 16 uppercase hex digits, zero padded. -/
def hexDigitChar (d : Nat) : Char :=
  if d < 10 then Char.ofNat (48 + d) else Char.ofNat (55 + d)

def hex16 (v : Nat) : List Char := (beDigits 16 16 v).map hexDigitChar

inductive PoolError where
  | parseFailed
  | poolExhausted
deriving DecidableEq, Repr

/-- `getEui` over the ledger's lines: skip lines whose trimmed text
starts with `#`, return the parse of the first line with no annotation
after the first comma (or an empty one); error out when the pool is
exhausted (and propagate a parse failure of the chosen line). -/
def getEui : List (List Char) → Except PoolError Nat
  | [] => .error .poolExhausted
  | line :: rest =>
    let t := trimChars line
    if t.head? = some '#' then getEui rest
    else
      let splits := splitComma t
      if splits.length = 1 ∨ (splits.length = 2 ∧ splits.getD 1 [] = []) then
        match parseEui (splits.getD 0 []) with
        | some v => .ok v
        | none => .error .parseFailed
      else getEui rest

/-- A ledger line the pool scanner accepts: not a comment after
trimming, and no (or an empty) annotation after the first comma. -/
def LineAvailable (line : List Char) : Prop :=
  ¬((trimChars line).head? = some '#') ∧
  ((splitComma (trimChars line)).length = 1 ∨
   ((splitComma (trimChars line)).length = 2 ∧ (splitComma (trimChars line)).getD 1 [] = []))

instance (line : List Char) : Decidable (LineAvailable line) := by
  unfold LineAvailable; infer_instance

/-- Declarative reading of the claim: scan top to bottom for the first
available line; `poolExhausted` when none exists, otherwise that line's
first field parsed as a 16-hex-digit big-endian value. -/
def nextAvailableSpec (lines : List (List Char)) : Except PoolError Nat :=
  match lines.find? (fun l => decide (LineAvailable l)) with
  | none => .error .poolExhausted
  | some l =>
    match parseEui ((splitComma (trimChars l)).getD 0 []) with
    | some v => .ok v
    | none => .error .parseFailed

/-- C5: `getEui` is exactly the top-to-bottom scan the claim describes:
comments are skipped, the first line without a (nonempty) annotation is
parsed as a 16-hex-digit value, and with no such line the scan fails
with the pool-exhausted error rather than returning a value. -/
theorem claim_c5_next_available :
    ∀ lines : List (List Char), getEui lines = nextAvailableSpec lines := by
  intro lines
  induction lines with
  | nil => rfl
  | cons line rest ih =>
    by_cases hhash : (trimChars line).head? = some '#'
    · have hc : decide (LineAvailable line) = false := by
        simp [LineAvailable, hhash]
      rw [getEui, if_pos hhash, ih]
      simp only [nextAvailableSpec, List.find?_cons, hc]
    · by_cases havail : (splitComma (trimChars line)).length = 1 ∨
        ((splitComma (trimChars line)).length = 2 ∧
          (splitComma (trimChars line)).getD 1 [] = [])
      · have hc : decide (LineAvailable line) = true := by
          simp only [decide_eq_true_eq]
          exact ⟨hhash, havail⟩
        rw [getEui, if_neg hhash, if_pos havail]
        simp only [nextAvailableSpec, List.find?_cons, hc]
      · have hc : decide (LineAvailable line) = false := by
          simp only [decide_eq_false_iff_not, LineAvailable]
          intro hcontra
          exact havail hcontra.2
        rw [getEui, if_neg hhash, if_neg havail, ih]
        simp only [nextAvailableSpec, List.find?_cons, hc]

/-! ### Ledger rewrite (`markEui`)

`markEui` scans the ledger and writes a rewritten copy line by line to a
temporary file: comment lines verbatim, other lines trimmed; the first
unannotated line whose value equals the target gets the annotation
appended after a comma.  An unannotated line with a *different* value
encountered before the match only triggers a console warning — the code
writes nothing but the newline for it, so the line's content is dropped
from the rewrite.  The annotation built from the component record
(board name, version, timestamp, UUIDs, comma-joined) is passed in as an
opaque character string. -/

def markEuiLoop (target : Nat) (ann : List Char) :
    List (List Char) → Bool → Except PoolError (List (List Char))
  | [], _ => .ok []
  | line :: rest, marked =>
    let t := trimChars line
    if t.head? = some '#' then
      -- comment: the original `scanner.Text()` is written back
      Except.map (fun ls => line :: ls) (markEuiLoop target ann rest marked)
    else
      let splits := splitComma t
      if ¬marked ∧ (splits.length = 1 ∨ (splits.length = 2 ∧ splits.getD 1 [] = [])) then
        match parseEui (splits.getD 0 []) with
        | none => .error .parseFailed
        | some v =>
          if v = target then
            Except.map (fun ls => (splits.getD 0 [] ++ [','] ++ ann) :: ls)
              (markEuiLoop target ann rest true)
          else
            -- "Found unmarked ..." is printed; only the newline is written
            Except.map (fun ls => [] :: ls) (markEuiLoop target ann rest marked)
      else
        -- already marked, or annotated line: the trimmed text is written
        Except.map (fun ls => t :: ls) (markEuiLoop target ann rest marked)

def markEui (lines : List (List Char)) (target : Nat) (ann : List Char) :
    Except PoolError (List (List Char)) :=
  markEuiLoop target ann lines false

instance {ε α : Type} [DecidableEq ε] [DecidableEq α] : DecidableEq (Except ε α) :=
  fun a b =>
    match a, b with
    | .ok x, .ok y =>
      if h : x = y then .isTrue (by rw [h])
      else .isFalse (fun hh => by cases hh; exact h rfl)
    | .error x, .error y =>
      if h : x = y then .isTrue (by rw [h])
      else .isFalse (fun hh => by cases hh; exact h rfl)
    | .ok _, .error _ => .isFalse (fun hh => by cases hh)
    | .error _, .ok _ => .isFalse (fun hh => by cases hh)

/-- C3 (code bug): on the ledger `00000000000000A1` / `00000000000000A2`
with target `0xA2`, the rewrite drops the content of the unannotated
non-matching first line entirely — it becomes an empty line (the code
only prints "Found unmarked ..." and writes nothing but the newline) —
instead of copying it unchanged as the claim requires. -/
theorem claim_c3_mark_frame_eval :
    markEui [("00000000000000A1").data, ("00000000000000A2").data] 162 [('X' : Char)] =
      .ok [[], ("00000000000000A2,X").data] ∧
    [] ≠ ("00000000000000A1").data := by
  exact ⟨by decide, by decide⟩

/-! ### Crash model for the ledger rewrite (`markEui` file operations)

After producing the rewritten lines, `markEui` performs, in order:
create-and-write the temporary file `eui_temp_<ts>.txt` in the ledger's
directory, `os.Remove` the original, `os.Rename` the temporary onto the
original.  The file-system state tracks the contents at the ledger path
and at the temporary path; a crash after `k` operations leaves the state
`fsAfter init ops k`. -/

structure LedgerFS where
  main : Option (List (List Char))
  temp : Option (List (List Char))
deriving DecidableEq, Repr

inductive FileOp where
  | writeTemp (content : List (List Char))
  | removeMain
  | renameTempToMain
deriving DecidableEq, Repr

def applyOp : LedgerFS → FileOp → LedgerFS
  | fs, .writeTemp c => ⟨fs.main, some c⟩
  | fs, .removeMain => ⟨none, fs.temp⟩
  | fs, .renameTempToMain => ⟨fs.temp, none⟩

/-- The file operations of a successful `markEui` run (a failing run
returns before removing or renaming anything). -/
def markEuiOps (lines : List (List Char)) (target : Nat) (ann : List Char) :
    List FileOp :=
  match markEui lines target ann with
  | .ok out => [.writeTemp out, .removeMain, .renameTempToMain]
  | .error _ => []

def fsAfter (fs0 : LedgerFS) (ops : List FileOp) (k : Nat) : LedgerFS :=
  (ops.take k).foldl applyOp fs0

/-- C4 (amended): stopping after the temporary file is written but
*before the removal of the original* leaves the original ledger
byte-identical; between the removal and the rename the ledger path holds
no file at all (the rewritten content lives only in the temporary file);
at no stopping point does the ledger path hold partial content — it is
always the full old content, absent, or the full new content. -/
theorem claim_c4_atomicity :
    ∀ (lines : List (List Char)) (target : Nat) (ann : List Char)
      (out : List (List Char)) (k : Nat),
      markEui lines target ann = .ok out →
      (fsAfter ⟨some lines, none⟩ (markEuiOps lines target ann) 1).main = some lines ∧
      (fsAfter ⟨some lines, none⟩ (markEuiOps lines target ann) 2).main = none ∧
      (fsAfter ⟨some lines, none⟩ (markEuiOps lines target ann) 2).temp = some out ∧
      (fsAfter ⟨some lines, none⟩ (markEuiOps lines target ann) 3).main = some out ∧
      ((fsAfter ⟨some lines, none⟩ (markEuiOps lines target ann) k).main = some lines ∨
       (fsAfter ⟨some lines, none⟩ (markEuiOps lines target ann) k).main = none ∨
       (fsAfter ⟨some lines, none⟩ (markEuiOps lines target ann) k).main = some out) := by
  intro lines target ann out k hok
  unfold markEuiOps
  rw [hok]
  refine ⟨rfl, rfl, rfl, rfl, ?_⟩
  match k with
  | 0 => exact Or.inl rfl
  | 1 => exact Or.inl rfl
  | 2 => exact Or.inr (Or.inl rfl)
  | k + 3 =>
    right; right
    show ((List.take (k + 3) [FileOp.writeTemp out, .removeMain, .renameTempToMain]).foldl
      applyOp ⟨some lines, none⟩).main = some out
    rw [List.take_of_length_le (by simp only [List.length_cons, List.length_nil]; omega)]
    rfl

theorem claim_c4_atomicity_witness :
    (fsAfter ⟨some [("00000000000000A1").data], none⟩
        (markEuiOps [("00000000000000A1").data] 161 [('X' : Char)]) 1).main =
      some [("00000000000000A1").data] ∧
    (fsAfter ⟨some [("00000000000000A1").data], none⟩
        (markEuiOps [("00000000000000A1").data] 161 [('X' : Char)]) 2).main = none ∧
    (fsAfter ⟨some [("00000000000000A1").data], none⟩
        (markEuiOps [("00000000000000A1").data] 161 [('X' : Char)]) 2).temp =
      some [("00000000000000A1,X").data] ∧
    (fsAfter ⟨some [("00000000000000A1").data], none⟩
        (markEuiOps [("00000000000000A1").data] 161 [('X' : Char)]) 3).main =
      some [("00000000000000A1,X").data] ∧
    ((fsAfter ⟨some [("00000000000000A1").data], none⟩
        (markEuiOps [("00000000000000A1").data] 161 [('X' : Char)]) 2).main =
      some [("00000000000000A1").data] ∨
     (fsAfter ⟨some [("00000000000000A1").data], none⟩
        (markEuiOps [("00000000000000A1").data] 161 [('X' : Char)]) 2).main = none ∨
     (fsAfter ⟨some [("00000000000000A1").data], none⟩
        (markEuiOps [("00000000000000A1").data] 161 [('X' : Char)]) 2).main =
      some [("00000000000000A1,X").data]) :=
  claim_c4_atomicity [("00000000000000A1").data] 161 [('X' : Char)]
    [("00000000000000A1,X").data] 2 (by decide)

/-- C4 counterexample to the original claim: the replacement is
remove-then-rename, so stopping after the removal — a point "after the
temporary file is written but before the final rename completes" — the
original ledger path no longer holds its old contents (the file is
gone). -/
theorem claim_c4_counterexample :
    markEui [("00000000000000A1").data] 161 [('X' : Char)] =
      .ok [("00000000000000A1,X").data] ∧
    (fsAfter ⟨some [("00000000000000A1").data], none⟩
        (markEuiOps [("00000000000000A1").data] 161 [('X' : Char)]) 2).main ≠
      some [("00000000000000A1").data] := by
  exact ⟨by decide, by decide⟩

/-! ### EUI range generator (`generate`)

For every value of the range the generator writes one ledger line:
`%016X,RESERVED` when the low 16 bits are `0x0000` or `0xFFFF`, plain
`%016X,` (empty annotation) otherwise, after one `#` comment header line
carrying the range and a timestamp.  (With `last = 2^64 - 1` the Go
`uint64` loop counter wraps and the loop never terminates, so a ledger
only exists below that bound.) -/

def genLine (v : Nat) : List Char :=
  if v % 65536 = 0 ∨ v % 65536 = 65535 then hex16 v ++ (",RESERVED").data
  else hex16 v ++ [',']

def generate (first last : Nat) (ts : List Char) : List (List Char) :=
  (("# EUI-64 range ").data ++ hex16 first ++ (" - ").data ++ hex16 last ++
    (", ").data ++ ts) ::
  (List.range' first (last + 1 - first)).map genLine

/-! ### Character-level lemmas -/

set_option maxHeartbeats 1000000 in
theorem hexDigitChar_props (d : Nat) (h : d < 16) :
    isHexDig (hexDigitChar d) = true ∧ hexVal (hexDigitChar d) = d ∧
    isSpc (hexDigitChar d) = false ∧ hexDigitChar d ≠ ',' ∧ hexDigitChar d ≠ '#' := by
  interval_cases d <;> decide

theorem hex16_length (v : Nat) : (hex16 v).length = 16 := by
  simp [hex16, beDigits_length]

theorem hex16_mem (v : Nat) : ∀ c ∈ hex16 v, ∃ d, d < 16 ∧ c = hexDigitChar d := by
  intro c hc
  obtain ⟨d, hd, rfl⟩ := List.mem_map.mp hc
  exact ⟨d, beDigits_lt 16 (by norm_num) 16 v d hd, rfl⟩

theorem foldl_hexVal (ds : List Nat) (hd : ∀ d ∈ ds, d < 16) :
    ∀ a, ds.foldl (fun acc d => acc * 16 + hexVal (hexDigitChar d)) a =
      ds.foldl (fun acc d => acc * 16 + d) a := by
  induction ds with
  | nil => intro a; rfl
  | cons d ds ih =>
    intro a
    simp only [List.foldl_cons]
    rw [(hexDigitChar_props d (hd d (List.mem_cons_self d ds))).2.1]
    exact ih (fun x hx => hd x (List.mem_cons_of_mem d hx)) _

theorem hex16_all_hex (v : Nat) : (hex16 v).all isHexDig = true := by
  rw [List.all_eq_true]
  intro c hc
  obtain ⟨d, hd, rfl⟩ := hex16_mem v c hc
  exact (hexDigitChar_props d hd).1

theorem parseEui_hex16 (v : Nat) (h : v < 2 ^ 64) : parseEui (hex16 v) = some v := by
  unfold parseEui
  rw [if_pos (show (hex16 v).length = 16 ∧ (hex16 v).all isHexDig = true from
    ⟨hex16_length v, hex16_all_hex v⟩)]
  rw [Option.some.injEq]
  unfold hex16
  rw [List.foldl_map]
  rw [foldl_hexVal _ (beDigits_lt 16 (by norm_num) 16 v) 0]
  have hbv := beVal_beDigits 16 16 v
  unfold beVal at hbv
  rw [hbv, Nat.mod_eq_of_lt (by norm_num; omega)]

theorem dropWhile_eq_self_of_none (p : Char → Bool) (cs : List Char)
    (h : ∀ c ∈ cs, p c = false) : cs.dropWhile p = cs := by
  cases cs with
  | nil => rfl
  | cons c cs =>
    rw [List.dropWhile_cons, h c (List.mem_cons_self c cs)]
    simp

theorem trimChars_eq_self (cs : List Char) (h : ∀ c ∈ cs, isSpc c = false) :
    trimChars cs = cs := by
  unfold trimChars
  rw [dropWhile_eq_self_of_none _ _ h,
    dropWhile_eq_self_of_none _ _ (fun c hc => h c (List.mem_reverse.mp hc)),
    List.reverse_reverse]

theorem dropWhile_append_last (p : Char → Bool) (xs : List Char) (c : Char)
    (hc : p c = false) : ∃ ys, (xs ++ [c]).dropWhile p = ys ++ [c] := by
  induction xs with
  | nil => exact ⟨[], by simp [List.dropWhile_cons, hc]⟩
  | cons x xs ih =>
    by_cases hx : p x = true
    · rw [List.cons_append, List.dropWhile_cons, hx]
      simpa using ih
    · refine ⟨x :: xs, ?_⟩
      rw [List.cons_append, List.dropWhile_cons, Bool.eq_false_iff.mpr hx]
      simp

/-- A line whose first character is `#` still starts with `#` after
`TrimSpace`. -/
theorem trimChars_hash_head (cs : List Char) :
    (trimChars ('#' :: cs)).head? = some '#' := by
  unfold trimChars
  have h1 : ('#' :: cs).dropWhile isSpc = '#' :: cs := by
    rw [List.dropWhile_cons, show isSpc '#' = false from rfl]
    simp
  rw [h1, List.reverse_cons]
  obtain ⟨ys, hys⟩ := dropWhile_append_last isSpc cs.reverse '#' (by decide)
  rw [hys, List.reverse_append]
  rfl

theorem splitComma_no_comma (s : List Char) (h : ∀ c ∈ s, c ≠ ',') :
    splitComma s = [s] := by
  induction s with
  | nil => rfl
  | cons c cs ih =>
    rw [splitComma, if_neg (h c (List.mem_cons_self c cs))]
    rw [ih (fun x hx => h x (List.mem_cons_of_mem c hx))]

theorem splitComma_append_comma (s t : List Char) (h : ∀ c ∈ s, c ≠ ',') :
    splitComma (s ++ ',' :: t) = s :: splitComma t := by
  induction s with
  | nil =>
    rw [List.nil_append, splitComma, if_pos rfl]
  | cons c cs ih =>
    rw [List.cons_append, splitComma, if_neg (h c (List.mem_cons_self c cs))]
    rw [ih (fun x hx => h x (List.mem_cons_of_mem c hx))]

theorem hex16_no_comma (v : Nat) : ∀ c ∈ hex16 v, c ≠ ',' := by
  intro c hc
  obtain ⟨d, hd, rfl⟩ := hex16_mem v c hc
  exact (hexDigitChar_props d hd).2.2.2.1

theorem hex16_no_space (v : Nat) : ∀ c ∈ hex16 v, isSpc c = false := by
  intro c hc
  obtain ⟨d, hd, rfl⟩ := hex16_mem v c hc
  exact (hexDigitChar_props d hd).2.2.1

theorem hex16_cons (v : Nat) : ∃ x xs, hex16 v = x :: xs ∧ x ≠ '#' := by
  cases h16 : hex16 v with
  | nil =>
    have hl := hex16_length v
    rw [h16] at hl
    simp at hl
  | cons x xs =>
    refine ⟨x, xs, rfl, ?_⟩
    have hmem : x ∈ hex16 v := by
      rw [h16]
      exact List.mem_cons_self x xs
    obtain ⟨d, hd, rfl⟩ := hex16_mem v x hmem
    exact (hexDigitChar_props d hd).2.2.2.2

/-- The RESERVED line of a generated ledger: not a comment, annotated
with the nonempty annotation `RESERVED`, hence never available. -/
theorem reservedLine_not_available (v : Nat) :
    ¬LineAvailable (hex16 v ++ (",RESERVED").data) := by
  have hns : ∀ c ∈ hex16 v ++ (",RESERVED").data, isSpc c = false := by
    intro c hc
    rcases List.mem_append.mp hc with hc | hc
    · exact hex16_no_space v c hc
    · exact (show ∀ c ∈ (",RESERVED").data, isSpc c = false by decide) c hc
  have htrim := trimChars_eq_self _ hns
  have hsplit : splitComma (hex16 v ++ (",RESERVED").data) =
      [hex16 v, ("RESERVED").data] := by
    rw [show (",RESERVED").data = ',' :: ("RESERVED").data from rfl,
      splitComma_append_comma _ _ (hex16_no_comma v),
      splitComma_no_comma _ (by decide)]
  intro hav
  obtain ⟨-, hav2⟩ := hav
  rw [htrim, hsplit] at hav2
  rcases hav2 with h1 | ⟨-, h2⟩
  · simp at h1
  · rw [show ([hex16 v, ("RESERVED").data] : List (List Char)).getD 1 [] =
      ("RESERVED").data from rfl] at h2
    exact absurd h2 (by decide)

/-- The unannotated line of a generated ledger: available, and its first
field is exactly the 16-digit identifier. -/
theorem plainLine_available (v : Nat) :
    LineAvailable (hex16 v ++ [',']) ∧
    (splitComma (trimChars (hex16 v ++ [',']))).getD 0 [] = hex16 v := by
  have hns : ∀ c ∈ hex16 v ++ [','], isSpc c = false := by
    intro c hc
    rcases List.mem_append.mp hc with hc | hc
    · exact hex16_no_space v c hc
    · rw [List.mem_singleton.mp hc]
      decide
  have htrim := trimChars_eq_self _ hns
  have hsplit : splitComma (hex16 v ++ [',']) = [hex16 v, []] := by
    rw [show ([','] : List Char) = ',' :: [] from rfl,
      splitComma_append_comma _ _ (hex16_no_comma v)]
    rfl
  obtain ⟨x, xs, hx, hxh⟩ := hex16_cons v
  refine ⟨⟨?_, ?_⟩, ?_⟩
  · rw [htrim, hx, List.cons_append, List.head?_cons]
    intro hh
    rw [Option.some.injEq] at hh
    exact hxh hh
  · rw [htrim, hsplit]
    right
    exact ⟨rfl, rfl⟩
  · rw [htrim, hsplit]
    simp [List.getD]

theorem getEui_cons_hash (line : List Char) (rest : List (List Char))
    (hhash : (trimChars line).head? = some '#') :
    getEui (line :: rest) = getEui rest := by
  simp only [getEui]
  rw [if_pos hhash]

theorem getEui_cons_skip (line : List Char) (rest : List (List Char))
    (hhash : ¬(trimChars line).head? = some '#')
    (hnav : ¬((splitComma (trimChars line)).length = 1 ∨
      ((splitComma (trimChars line)).length = 2 ∧
        (splitComma (trimChars line)).getD 1 [] = []))) :
    getEui (line :: rest) = getEui rest := by
  simp only [getEui]
  rw [if_neg hhash, if_neg hnav]

theorem getEui_cons_avail (line : List Char) (rest : List (List Char))
    (hhash : ¬(trimChars line).head? = some '#')
    (hav : (splitComma (trimChars line)).length = 1 ∨
      ((splitComma (trimChars line)).length = 2 ∧
        (splitComma (trimChars line)).getD 1 [] = [])) :
    getEui (line :: rest) =
      match parseEui ((splitComma (trimChars line)).getD 0 []) with
      | some v => .ok v
      | none => .error .parseFailed := by
  simp only [getEui]
  rw [if_neg hhash, if_pos hav]

theorem getEui_genLines : ∀ vs : List Nat, (∀ x ∈ vs, x < 2 ^ 64) →
    ∀ w, getEui (vs.map genLine) = .ok w →
      w % 65536 ≠ 0 ∧ w % 65536 ≠ 65535 := by
  intro vs
  induction vs with
  | nil =>
    intro hb w hw
    simp [getEui] at hw
  | cons v vs ih =>
    intro hb w hw
    have hv : v < 2 ^ 64 := hb v (List.mem_cons_self v vs)
    rw [List.map_cons] at hw
    by_cases hres : v % 65536 = 0 ∨ v % 65536 = 65535
    · rw [genLine, if_pos hres] at hw
      have hf := plainLine_available v
      have hhash : ¬(trimChars (hex16 v ++ (",RESERVED").data)).head? = some '#' := by
        have hns : ∀ c ∈ hex16 v ++ (",RESERVED").data, isSpc c = false := by
          intro c hc
          rcases List.mem_append.mp hc with hc | hc
          · exact hex16_no_space v c hc
          · exact (show ∀ c ∈ (",RESERVED").data, isSpc c = false by decide) c hc
        rw [trimChars_eq_self _ hns]
        obtain ⟨x, xs, hx, hxh⟩ := hex16_cons v
        rw [hx, List.cons_append, List.head?_cons]
        intro hh
        rw [Option.some.injEq] at hh
        exact hxh hh
      rw [getEui_cons_skip _ _ hhash
        (fun hav => reservedLine_not_available v ⟨hhash, hav⟩)] at hw
      exact ih (fun x hx => hb x (List.mem_cons_of_mem v hx)) w hw
    · rw [genLine, if_neg hres] at hw
      obtain ⟨⟨hhash, hav⟩, hfield⟩ := plainLine_available v
      rw [getEui_cons_avail _ _ hhash hav, hfield, parseEui_hex16 v hv] at hw
      rw [Except.ok.injEq] at hw
      subst hw
      exact ⟨fun h => hres (Or.inl h), fun h => hres (Or.inr h)⟩

/-- C6: in a generated ledger every identifier in the range whose low 16
bits are `0x0000` or `0xFFFF` is written pre-annotated `RESERVED`, every
other identifier in the range is written with an empty annotation, and
`next_available` over the generated ledger never returns a reserved
identifier.  (`last < 2^64 - 1` because the `uint64` loop counter would
otherwise wrap and never terminate; the timestamp text contains no
newline so the header stays a single comment line.) -/
theorem claim_c6_reserved_exclusion :
    ∀ (first last : Nat) (ts : List Char) (v w : Nat),
      last < 2 ^ 64 - 1 → (∀ c ∈ ts, c ≠ '\n') →
      first ≤ v → v ≤ last →
      ((v % 65536 = 0 ∨ v % 65536 = 65535) →
        hex16 v ++ (",RESERVED").data ∈ generate first last ts) ∧
      (¬(v % 65536 = 0 ∨ v % 65536 = 65535) →
        hex16 v ++ [','] ∈ generate first last ts) ∧
      (getEui (generate first last ts) = .ok w →
        w % 65536 ≠ 0 ∧ w % 65536 ≠ 65535) := by
  intro first last ts v w hlast hts hfv hvl
  have hmemv : v ∈ List.range' first (last + 1 - first) :=
    List.mem_range'_1.mpr ⟨hfv, by omega⟩
  refine ⟨?_, ?_, ?_⟩
  · intro hres
    exact List.mem_cons_of_mem _
      (List.mem_map.mpr ⟨v, hmemv, by rw [genLine, if_pos hres]⟩)
  · intro hres
    exact List.mem_cons_of_mem _
      (List.mem_map.mpr ⟨v, hmemv, by rw [genLine, if_neg hres]⟩)
  · intro hget
    rw [generate] at hget
    rw [show ("# EUI-64 range ").data = '#' :: (" EUI-64 range ").data from rfl] at hget
    simp only [List.cons_append] at hget
    rw [getEui_cons_hash _ _ (trimChars_hash_head _)] at hget
    refine getEui_genLines (List.range' first (last + 1 - first)) ?_ w hget
    intro x hx
    have := List.mem_range'_1.mp hx
    omega

theorem claim_c6_reserved_exclusion_witness :
    ((65535 % 65536 = 0 ∨ 65535 % 65536 = 65535) →
      hex16 65535 ++ (",RESERVED").data ∈ generate 65534 65536 [('T' : Char)]) ∧
    (¬(65535 % 65536 = 0 ∨ 65535 % 65536 = 65535) →
      hex16 65535 ++ [','] ∈ generate 65534 65536 [('T' : Char)]) ∧
    (getEui (generate 65534 65536 [('T' : Char)]) = .ok 65534 →
      65534 % 65536 ≠ 0 ∧ 65534 % 65536 ≠ 65535) :=
  claim_c6_reserved_exclusion 65534 65536 [('T' : Char)] 65535 65534
    (by norm_num) (by decide) (by norm_num) (by norm_num)
